import Mathlib

/-!
Verification of the asana_mailer core data transformations.

Shallow embedding of the core of `asana_mailer.py`: the Sectioner
(`Section.create_sections`), the Filter Engine (`Project.filter_tasks`),
the comment selector filters (`last_comment`, `most_recent_comments`,
`comments_within_lookback`), and the report assembler
(`Project.create_project`) with its early comment-fetch skip optimization.

Timestamps are modelled as integers measured in hours, so the comparison
`current_time_utc - comment_time < timedelta(hours=hours)` from the source
becomes an integer comparison in the same unit.  Filter sets (Python
`frozenset`) are modelled as `Finset String`; a `None`/absent filter is the
empty set (Python truthiness on a frozenset is nonemptiness).
-/

namespace AsanaMailer

/-- A story record from a task's activity feed (the Asana `stories`
payload).  Only the fields the program reads are modelled: `story_type`
is the payload's `type` field, and `created_at` its creation timestamp
(an integer number of hours, see the module docstring). -/
structure Story where
  story_type : String
  created_at : Int
  deriving DecidableEq, Repr

/-- A raw task record as returned by the projects/tasks API endpoint:
the fields of the JSON dictionary that `asana_mailer.py` reads.
`assignee` holds the assignee's `name` subfield when an assignee object is
present; `completed_at` holds the parsed timestamp of the `completed_at`
field when one is present; `notes` uses the empty string for a falsy
(absent/empty) notes field; `tags` holds the `name` field of each tag
record. -/
structure TaskRecord where
  id : Nat
  name : String
  assignee : Option String
  completed : Bool
  completed_at : Option Int
  notes : String
  due_on : Option String
  tags : List String
  deriving DecidableEq, Repr

/-- An Asana task (class `Task` of the source). -/
structure Task where
  name : String
  assignee : Option String
  completed : Bool
  completion_time : Option Int
  description : Option String
  due_date : Option String
  tags : List String
  comments : Option (List Story)
  deriving DecidableEq, Repr

/-- A section of tasks within a project (class `Section` of the source). -/
structure Section where
  name : String
  tasks : List Task
  deriving DecidableEq, Repr

/-- An Asana project (class `Project` of the source). -/
structure Project where
  id : String
  name : String
  description : String
  sections : List Section
  deriving DecidableEq, Repr

/-- Marker test `task[u'name'].endswith(':')` — a record is a section marker iff its
display name's final character is a colon (`str.endswith` with a
one-character suffix is exactly a last-character test; the empty string
has no final character and is not a marker). -/
def isSectionMarker (name : String) : Bool :=
  name.data.getLastD ' ' == ':'

/-- Method `Task.tags_in` (source lines 276-279): whether the task's tag set is a
superset of the tag filter set (`frozenset(self.tags) >= tag_filter_set`). -/
def Task.tags_in (t : Task) (tag_filter_set : Finset String) : Bool :=
  decide (tag_filter_set ⊆ t.tags.toFinset)

/-- Construction of a `Task` from a raw record inside
`Section.create_sections` (source lines 218-236).  `task_comments` is the
side mapping from task id to fetched comments (`task_comments.get(task_id)`,
absent ids giving `None`). -/
def parseTask (task_comments : Nat → Option (List Story)) (r : TaskRecord) : Task :=
  { name := r.name
    assignee := r.assignee
    completed := r.completed
    completion_time := if r.completed then r.completed_at else none
    description := if r.notes = "" then none else some r.notes
    due_date := r.due_on
    tags := r.tags
    comments := task_comments r.id }

/-- The loop state of `Section.create_sections`.  Python mutates a
`sections` list, a `current_section` object and a distinguished
`misc_section` object; here `revSections` accumulates the appended sections
in reverse, `curName`/`revCurTasks` are the current section's name and
(reversed) task list, `curIsMisc` records whether `current_section` is still
the identical `misc_section` object (true until the first marker), and
`miscTasks` is the Misc section's task list frozen at the first marker
(while `curIsMisc` holds, the Misc section *is* the current section, so its
tasks are `revCurTasks`). -/
structure SectState where
  revSections : List Section
  curName : String
  revCurTasks : List Task
  curIsMisc : Bool
  miscTasks : List Task
  deriving Repr

/-- Initial loop state: `misc_section = Section(u'Misc:')`,
`current_section = misc_section`, `sections = []`. -/
def initSectState : SectState :=
  { revSections := []
    curName := "Misc:"
    revCurTasks := []
    curIsMisc := true
    miscTasks := [] }

/-- One iteration of the `for task in project_tasks_json` loop of
`Section.create_sections` (source lines 212-237).  A marker record first
appends the outgoing current section when it has tasks and is not named
`Misc:` (`current_section.tasks and current_section.name != u'Misc:'`),
freezes the Misc section's tasks if the current section was still the Misc
object, and starts a fresh current section named after the marker; any
other record is parsed into a `Task` and appended to the current section. -/
def sectStep (task_comments : Nat → Option (List Story)) (st : SectState)
    (r : TaskRecord) : SectState :=
  if isSectionMarker r.name then
    { revSections :=
        if st.revCurTasks.isEmpty = false ∧ st.curName ≠ "Misc:" then
          ⟨st.curName, st.revCurTasks.reverse⟩ :: st.revSections
        else st.revSections
      curName := r.name
      revCurTasks := []
      curIsMisc := false
      miscTasks := if st.curIsMisc then st.revCurTasks.reverse else st.miscTasks }
  else
    { st with revCurTasks := parseTask task_comments r :: st.revCurTasks }

/-- The whole scan of `Section.create_sections` over the record list. -/
def sectLoop (task_comments : Nat → Option (List Story))
    (project_tasks_json : List TaskRecord) : SectState :=
  project_tasks_json.foldl (sectStep task_comments) initSectState

/-- The tasks the `misc_section` object holds once the scan is over: while
`current_section` is still the Misc object they are the current tasks,
afterwards the list frozen at the first marker. -/
def SectState.miscFinal (st : SectState) : List Task :=
  if st.curIsMisc then st.revCurTasks.reverse else st.miscTasks

/-- The epilogue of `Section.create_sections` (source lines 238-243):
append the final current section if it has tasks, then append the Misc
section if it has tasks and `current_section != misc_section` (object
identity, i.e. a marker was seen). -/
def sectFinish (st : SectState) : List Section :=
  let secs := st.revSections.reverse
  let secs :=
    if st.revCurTasks.isEmpty then secs
    else secs ++ [⟨st.curName, st.revCurTasks.reverse⟩]
  if st.miscFinal.isEmpty = false ∧ st.curIsMisc = false then
    secs ++ [⟨"Misc:", st.miscFinal⟩]
  else secs

/-- The Sectioner `Section.create_sections` (source lines 200-243). -/
def Section.create_sections (project_tasks_json : List TaskRecord)
    (task_comments : Nat → Option (List Story)) : List Section :=
  sectFinish (sectLoop task_comments project_tasks_json)

/-- The Filter Engine `Project.filter_tasks` (source lines 164-188): retain sections whose
name is in the section filter set (when that set is nonempty), then within
each section retain tasks whose tags pass `tags_in` (when the tag filter
set is nonempty), then drop sections left without tasks.
`current_time_utc` is a parameter of the source method that its body never
reads; it is kept for fidelity. -/
def Project.filter_tasks (p : Project) (current_time_utc : Int)
    (section_filters task_filters : Finset String) : Project :=
  let sections1 :=
    if section_filters = ∅ then p.sections
    else p.sections.filter fun s => decide (s.name ∈ section_filters)
  let sections2 :=
    if task_filters = ∅ then sections1
    else sections1.map fun s => { s with tasks := s.tasks.filter fun t => t.tags_in task_filters }
  { p with sections := sections2.filter fun s => !s.tasks.isEmpty }

/-- Comment test `story[u'type'] == u'comment'` (source lines 130-132). -/
def isCommentStory (s : Story) : Bool :=
  s.story_type == "comment"

/-- Membership of Python's `current_section` variable (a string or `None`)
in the section filter frozenset: `None` is never a member. -/
def optionMem (cur : Option String) (filters : Finset String) : Bool :=
  match cur with
  | none => false
  | some n => decide (n ∈ filters)

/-- One iteration of the comment-fetching loop of `Project.create_project`
(source lines 118-134).  The state is the tracked `current_section`
(initially `None`) and the partial `task_comments` mapping.  A task is
skipped when the section filter set is nonempty and the tracked current
section is not in it, or when the tag filter set is nonempty and the task's
tag set is not a superset of it; otherwise its stories are fetched and the
comment-typed ones recorded under its id when there are any. -/
def fetchStep (stories : Nat → List Story)
    (section_filters task_filters : Finset String)
    (st : Option String × (Nat → Option (List Story))) (task : TaskRecord) :
    Option String × (Nat → Option (List Story)) :=
  let cur := if isSectionMarker task.name then some task.name else st.1
  if section_filters ≠ ∅ ∧ optionMem cur section_filters = false then
    (cur, st.2)
  else if task_filters ≠ ∅ ∧ ¬ task_filters ⊆ task.tags.toFinset then
    (cur, st.2)
  else
    let cs := (stories task.id).filter isCommentStory
    if cs.isEmpty then (cur, st.2)
    else (cur, fun i => if i = task.id then some cs else st.2 i)

/-- The assembler `Project.create_project` (source lines 78-146), minus the network:
`stories` stands for the `asana_client.tasks.stories` endpoint, and the
project-level metadata is passed in directly in place of
`projects.find_by_id`.  The comment map is built by the optimized loop,
then `Section.create_sections` and `Project.filter_tasks` run. -/
def Project.create_project (project_id project_name project_notes : String)
    (project_tasks_json : List TaskRecord) (stories : Nat → List Story)
    (current_time_utc : Int) (task_filters section_filters : Finset String) :
    Project :=
  let task_comments :=
    (project_tasks_json.foldl (fetchStep stories section_filters task_filters)
      (none, fun _ => none)).2
  let project : Project :=
    { id := project_id
      name := project_name
      description := project_notes
      sections := Section.create_sections project_tasks_json task_comments }
  project.filter_tasks current_time_utc section_filters task_filters

/-- The reference pipeline of the spec's refinement requirement: fetch the
comments of *every* task (no early skip), then run the Sectioner and the
Filter Engine exactly as `create_project` does. -/
def Project.create_project_unopt (project_id project_name project_notes : String)
    (project_tasks_json : List TaskRecord) (stories : Nat → List Story)
    (current_time_utc : Int) (task_filters section_filters : Finset String) :
    Project :=
  let task_comments :=
    project_tasks_json.foldl
      (fun acc task =>
        let cs := (stories task.id).filter isCommentStory
        if cs.isEmpty then acc
        else fun i => if i = task.id then some cs else acc i)
      (fun _ => none)
  let project : Project :=
    { id := project_id
      name := project_name
      description := project_notes
      sections := Section.create_sections project_tasks_json task_comments }
  project.filter_tasks current_time_utc section_filters task_filters

/-- Filter `last_comment` (source lines 284-288): the most recent comment as a
singleton list, or the empty list. -/
def last_comment (task_comments : List Story) : List Story :=
  if task_comments.isEmpty then []
  else task_comments.drop (task_comments.length - 1)

/-- Filter `most_recent_comments` (source lines 291-299): clamp `num_comments`
into range (a non-positive value becomes 1, a value above the length
becomes the length), then take the final slice `task_comments[-n:]`. -/
def most_recent_comments (task_comments : List Story) (num_comments : Int) :
    List Story :=
  let n : Int :=
    if num_comments ≤ 0 then 1
    else if num_comments > (task_comments.length : Int) then (task_comments.length : Int)
    else num_comments
  if task_comments.isEmpty then []
  else task_comments.drop (task_comments.length - n.toNat)

/-- Filter `comments_within_lookback` (source lines 302-311): keep the comments
whose age is strictly below the lookback window; if none qualify but the
input was nonempty, fall back to the single most recent comment. -/
def comments_within_lookback (task_comments : List Story)
    (current_time_utc : Int) (hours : Int) : List Story :=
  let filtered := task_comments.filter fun c =>
    decide (current_time_utc - c.created_at < hours)
  if filtered.isEmpty then
    match task_comments.getLast? with
    | some c => [c]
    | none => []
  else filtered

/-- Total number of tasks across a section list (the measure of the spec's
monotonicity property: "the retained task count"). -/
def sectionsTaskCount (sections : List Section) : Nat :=
  (sections.map fun s => s.tasks.length).sum

/-! ## Concrete demonstration inputs -/

/-- A task record that precedes every section marker (so it belongs to the
Misc section), carrying no tags. -/
def prefixTaskRecord : TaskRecord :=
  ⟨1, "T1", none, false, none, "", none, []⟩

/-- A stories endpoint that returns one comment story for task 1. -/
def prefixStories : Nat → List Story :=
  fun i => if i = 1 then [⟨"comment", 0⟩] else []

/-- A small concrete comment list. -/
def demoComments : List Story :=
  [⟨"comment", 0⟩, ⟨"comment", 1⟩]

/-- A concrete task carrying tag `x`. -/
def demoTaskX : Task :=
  ⟨"T1", none, false, none, none, none, ["x"], none⟩

/-- A concrete task carrying no tags. -/
def demoTaskNoTag : Task :=
  ⟨"T2", none, false, none, none, none, [], none⟩

/-- A concrete section holding both demo tasks. -/
def demoSection : Section :=
  ⟨"S:", [demoTaskX, demoTaskNoTag]⟩

/-- A concrete project holding the demo section. -/
def demoProject : Project :=
  ⟨"p", "P", "", [demoSection]⟩

/-! ## Theorems -/

/-- C1: the early comment-fetch skip in `Project.create_project` is *not*
a refinement of the fetch-everything pipeline.  With a task that precedes
every section marker, no tag filter, and the section filter `{"Misc:"}`
(so the Misc section passes the filters), the tracked `current_section` in
the fetch loop is still `None`, which is never a member of the filter set,
so the task's comment fetch is skipped; yet the Sectioner places the task
in the retained Misc section.  The optimized pipeline yields the task with
no comments while the reference pipeline yields it with its fetched
comment, so the two final Project trees differ. -/
theorem create_project_skip_not_refinement :
    ((Project.create_project "p" "P" "" [prefixTaskRecord] prefixStories
        10 ∅ {"Misc:"}).sections.map fun s => s.tasks.map fun t => t.comments)
      = [[none]] ∧
    ((Project.create_project_unopt "p" "P" "" [prefixTaskRecord] prefixStories
        10 ∅ {"Misc:"}).sections.map fun s => s.tasks.map fun t => t.comments)
      = [[some [⟨"comment", 0⟩]]] ∧
    Project.create_project "p" "P" "" [prefixTaskRecord] prefixStories
        10 ∅ {"Misc:"} ≠
      Project.create_project_unopt "p" "P" "" [prefixTaskRecord] prefixStories
        10 ∅ {"Misc:"} :=
  ⟨by decide, by decide, by decide⟩

/-- C6: on a nonempty comment list, `comments_within_lookback` returns the
comments strictly within the lookback window in original order, and falls
back to the singleton holding the most recent comment when none qualify;
in particular its result is never empty. -/
theorem comments_within_lookback_spec (cs : List Story) (now hours : Int)
    (h : cs ≠ []) :
    comments_within_lookback cs now hours ≠ [] ∧
    comments_within_lookback cs now hours =
      (let f := cs.filter fun c => decide (now - c.created_at < hours)
       if f.isEmpty then [cs.getLast h] else f) := by
  have hl : cs.getLast? = some (cs.getLast h) :=
    List.getLast?_eq_getLast_of_ne_nil h
  simp only [comments_within_lookback]
  by_cases hf : (cs.filter fun c => decide (now - c.created_at < hours)).isEmpty
  · simp [hf, hl]
  · simp only [if_neg hf]
    refine ⟨fun hnil => hf ?_, by trivial⟩
    rw [hnil]
    rfl

/-- Witness for C6 at a concrete input: one comment two hours old, a
one-hour window; the filter selects nothing, so the fallback fires. -/
theorem comments_within_lookback_spec_witness :
    comments_within_lookback [⟨"comment", 0⟩] 2 1 ≠ [] :=
  (comments_within_lookback_spec [⟨"comment", 0⟩] 2 1 (by decide)).1

/-- Helper: `most_recent_comments` is the final slice of the list at the
index clamped into `[1, length]`. -/
theorem most_recent_comments_key (cs : List Story) (n : Int) :
    most_recent_comments cs n =
      cs.drop (cs.length - (min (max n 1) (cs.length : Int)).toNat) := by
  rcases eq_or_ne cs [] with hcs | hcs
  · subst hcs; simp [most_recent_comments]
  · have hlen : 1 ≤ cs.length := List.length_pos.mpr hcs
    have hemp : cs.isEmpty = false := by
      simp [List.isEmpty_iff, hcs]
    simp only [most_recent_comments, hemp, Bool.false_eq_true, if_false]
    by_cases h1 : n ≤ 0
    · rw [if_pos h1]
      congr 1
      omega
    · by_cases h2 : n > (cs.length : Int)
      · rw [if_neg h1, if_pos h2]
        congr 1
        omega
      · rw [if_neg h1, if_neg h2]
        congr 1
        omega

/-- C7: `most_recent_comments` with a non-positive count behaves exactly
like count 1; with a count at least the list length it returns the whole
list unchanged; in general it returns the last `n` comments in original
order with `n` clamped into `[1, length]`. -/
theorem most_recent_comments_clamp (cs : List Story) (n : Int) :
    (n ≤ 0 → most_recent_comments cs n = most_recent_comments cs 1) ∧
    ((cs.length : Int) ≤ n → most_recent_comments cs n = cs) ∧
    most_recent_comments cs n =
      cs.drop (cs.length - (min (max n 1) (cs.length : Int)).toNat) := by
  refine ⟨?_, ?_, most_recent_comments_key cs n⟩
  · intro h1
    rw [most_recent_comments_key, most_recent_comments_key]
    congr 1
    omega
  · intro h2
    rw [most_recent_comments_key]
    have hx : cs.length - (min (max n 1) (cs.length : Int)).toNat = 0 := by
      omega
    rw [hx]
    exact cs.drop_zero

/-- Witness for C7 at concrete inputs: on a two-element list, count `-3`
agrees with count `1`, and count `5` returns the whole list. -/
theorem most_recent_comments_clamp_witness :
    most_recent_comments demoComments (-3) = most_recent_comments demoComments 1 ∧
    most_recent_comments demoComments 5 = demoComments :=
  ⟨(most_recent_comments_clamp demoComments (-3)).1 (by decide),
   (most_recent_comments_clamp demoComments 5).2.1 (by decide)⟩

/-- Helper: `Project.filter_tasks` in closed form — the section-filter
stage, then a task-filter map over every surviving section, then the
empty-section prune. -/
theorem filter_tasks_def (p : Project) (now : Int) (sf tf : Finset String) :
    p.filter_tasks now sf tf =
      { p with sections :=
          (((if sf = ∅ then p.sections
             else p.sections.filter fun s => decide (s.name ∈ sf)).map
            (fun s => { s with tasks :=
              if tf = ∅ then s.tasks
              else s.tasks.filter fun t => t.tags_in tf })).filter
            (fun s => !s.tasks.isEmpty)) } := by
  by_cases htf : tf = ∅
  · subst htf
    simp only [Project.filter_tasks, eq_self_iff_true, if_true]
    rw [show (fun (s : Section) => Section.mk s.name s.tasks) = fun s => s from rfl,
      List.map_id']
  · simp only [Project.filter_tasks, if_neg htf]

/-- Helper: the section list of the closed form. -/
theorem filter_tasks_sections (p : Project) (now : Int) (sf tf : Finset String) :
    (p.filter_tasks now sf tf).sections =
      ((if sf = ∅ then p.sections
        else p.sections.filter fun s => decide (s.name ∈ sf)).map
        (fun s => { s with tasks :=
          if tf = ∅ then s.tasks
          else s.tasks.filter fun t => t.tags_in tf })).filter
        (fun s => !s.tasks.isEmpty) := by
  rw [filter_tasks_def]

/-- Helper: pruning the empty sections does not change the total task
count, since a pruned section has zero tasks. -/
theorem sectionsTaskCount_filter_nonempty (l : List Section) :
    sectionsTaskCount (l.filter fun s => !s.tasks.isEmpty) = sectionsTaskCount l := by
  induction l with
  | nil => rfl
  | cons s l ih =>
    by_cases hs : s.tasks.isEmpty
    · have hlen : s.tasks.length = 0 := by
        rw [List.isEmpty_iff.mp hs]
        rfl
      simp [sectionsTaskCount, List.filter_cons, hs, hlen]
      simpa [sectionsTaskCount] using ih
    · simp [sectionsTaskCount, List.filter_cons, hs]
      simpa [sectionsTaskCount] using ih

/-- C5: with a nonempty required-tag set, `Project.filter_tasks` retains
exactly the tasks whose tag set is a superset of the required set —
`tags_in` is literally the superset test, extra tags permitted — and with
an empty required-tag set no tag filtering is applied (only the
empty-section prune runs). -/
theorem tag_filter_superset (p : Project) (now : Int) (tf : Finset String)
    (h : tf ≠ ∅) :
    ((p.filter_tasks now ∅ tf).sections =
      (p.sections.map fun s =>
        { s with tasks := s.tasks.filter fun t => decide (tf ⊆ t.tags.toFinset) }).filter
        fun s => !s.tasks.isEmpty) ∧
    (∀ t : Task, t.tags_in tf = true ↔ tf ⊆ t.tags.toFinset) ∧
    ((p.filter_tasks now ∅ ∅).sections =
      p.sections.filter fun s => !s.tasks.isEmpty) := by
  refine ⟨?_, fun t => by simp [Task.tags_in], ?_⟩
  · rw [filter_tasks_sections, if_pos rfl]
    congr 1
    apply List.map_congr_left
    intro s _
    rw [if_neg h]
    rfl
  · rw [filter_tasks_sections, if_pos rfl]
    have hid : (fun (s : Section) =>
        { s with tasks := if (∅ : Finset String) = ∅ then s.tasks
                          else s.tasks.filter fun t => t.tags_in ∅ }) = fun s => s := by
      funext s
      rw [if_pos rfl]
    rw [hid, List.map_id']

/-- Witness for C5 at a concrete input: one section, two tasks, required
tag set `{"x"}`; the tagged task is kept, the untagged one dropped. -/
theorem tag_filter_superset_witness :
    (demoProject.filter_tasks 0 ∅ {"x"}).sections =
      (demoProject.sections.map (fun s =>
        { s with tasks := s.tasks.filter (fun t =>
            decide (({"x"} : Finset String) ⊆ t.tags.toFinset)) })).filter
        (fun s => !s.tasks.isEmpty) :=
  (tag_filter_superset demoProject 0 {"x"} (by decide)).1

/-- Helper: `Project.filter_tasks` with an empty tag-filter set in closed
form — section filter then empty-section prune. -/
theorem filter_tasks_empty_tf (p : Project) (now : Int) (sf : Finset String) :
    p.filter_tasks now sf ∅ =
      { p with sections :=
          ((if sf = ∅ then p.sections
            else p.sections.filter (fun s => decide (s.name ∈ sf))).filter
            (fun s => !s.tasks.isEmpty)) } := by
  simp only [Project.filter_tasks, eq_self_iff_true, if_true]

/-- Helper: the section-filter-then-prune stage is idempotent on section
lists. -/
theorem stage_idem (l : List Section) (sf : Finset String) :
    ((if sf = ∅ then
        (if sf = ∅ then l else l.filter fun s => decide (s.name ∈ sf)).filter
          (fun s => !s.tasks.isEmpty)
      else
        ((if sf = ∅ then l else l.filter fun s => decide (s.name ∈ sf)).filter
          (fun s => !s.tasks.isEmpty)).filter
          fun s => decide (s.name ∈ sf)).filter
      (fun s => !s.tasks.isEmpty)) =
      (if sf = ∅ then l else l.filter fun s => decide (s.name ∈ sf)).filter
        (fun s => !s.tasks.isEmpty) := by
  by_cases hsf : sf = ∅
  · rw [if_pos hsf, if_pos hsf]
    simp only [List.filter_filter]
    apply List.filter_congr
    intro s _
    cases s.tasks.isEmpty <;> rfl
  · rw [if_neg hsf, if_neg hsf]
    simp only [List.filter_filter]
    apply List.filter_congr
    intro s _
    cases hq : decide (s.name ∈ sf) <;> cases he : s.tasks.isEmpty <;>
      simp [hq, he]

/-- C9: section filtering followed by empty-section pruning (that is,
`Project.filter_tasks` with an empty tag-filter set) is idempotent. -/
theorem section_filter_idempotent (p : Project) (now now' : Int)
    (sf : Finset String) :
    (p.filter_tasks now sf ∅).filter_tasks now' sf ∅ = p.filter_tasks now sf ∅ := by
  have h2 := filter_tasks_empty_tf (p.filter_tasks now sf ∅) now' sf
  rw [filter_tasks_empty_tf p now sf] at h2 ⊢
  rw [h2]
  show Project.mk p.id p.name p.description _ = Project.mk p.id p.name p.description _
  congr 1
  exact stage_idem p.sections sf

/-- C10: `Project.filter_tasks` only deletes — the surviving sections are
a sublist (in original order) of the original sections with their task
lists filtered in place, and every surviving section keeps its name and a
sublist (in original order) of its original tasks; nothing is reordered,
duplicated or introduced. -/
theorem filter_tasks_only_deletes (p : Project) (now : Int)
    (sf tf : Finset String) :
    ((p.filter_tasks now sf tf).sections.Sublist
      (p.sections.map (fun s =>
        { s with tasks :=
            if tf = ∅ then s.tasks
            else s.tasks.filter fun t => t.tags_in tf }))) ∧
    (∀ s' ∈ (p.filter_tasks now sf tf).sections, ∃ s ∈ p.sections,
      s'.name = s.name ∧ s'.tasks.Sublist s.tasks) := by
  have hsub : (p.filter_tasks now sf tf).sections.Sublist
      (p.sections.map (fun s =>
        { s with tasks :=
            if tf = ∅ then s.tasks
            else s.tasks.filter fun t => t.tags_in tf })) := by
    rw [filter_tasks_sections]
    refine (List.filter_sublist _).trans (List.Sublist.map _ ?_)
    by_cases hsf : sf = ∅
    · rw [if_pos hsf]
    · rw [if_neg hsf]
      exact List.filter_sublist _
  refine ⟨hsub, fun s' hs' => ?_⟩
  have hmem := hsub.subset hs'
  obtain ⟨s, hs, hmap⟩ := List.mem_map.mp hmem
  refine ⟨s, hs, ?_, ?_⟩
  · rw [← hmap]
  · rw [← hmap]
    by_cases htf : tf = ∅
    · rw [if_pos htf]
    · rw [if_neg htf]
      exact List.filter_sublist _

/-- Witness for C10 at a concrete input: the section surviving filtering
of the spec's worked example keeps its name and a sublist of its tasks. -/
theorem filter_tasks_only_deletes_witness :
    ∃ s ∈ demoProject.sections,
      (Section.mk "S:" [demoTaskX]).name = s.name ∧
        List.Sublist (Section.mk "S:" [demoTaskX]).tasks s.tasks :=
  (filter_tasks_only_deletes demoProject 0 ∅ {"x"}).2
    (Section.mk "S:" [demoTaskX]) (by decide)

/-- C8: tag filtering is monotonic — enlarging the required-tag set never
increases the total number of retained tasks. -/
theorem tag_filter_monotone (p : Project) (now : Int) (sf A B : Finset String)
    (hAB : A ⊆ B) :
    sectionsTaskCount (p.filter_tasks now sf B).sections ≤
      sectionsTaskCount (p.filter_tasks now sf A).sections := by
  rw [filter_tasks_sections, filter_tasks_sections,
    sectionsTaskCount_filter_nonempty, sectionsTaskCount_filter_nonempty]
  simp only [sectionsTaskCount, List.map_map]
  apply List.sum_le_sum
  intro s _
  simp only [Function.comp]
  by_cases hA : A = ∅
  · rw [if_pos hA]
    by_cases hB : B = ∅
    · rw [if_pos hB]
    · rw [if_neg hB]
      exact (List.filter_sublist _).length_le
  · have hB : B ≠ ∅ := fun hB => hA (Finset.subset_empty.mp (hB ▸ hAB))
    rw [if_neg hA, if_neg hB]
    refine (List.monotone_filter_right _ fun t ht => ?_).length_le
    simp only [Task.tags_in, decide_eq_true_eq] at ht ⊢
    exact hAB.trans ht

/-- Witness for C8 at a concrete input: enlarging the tag filter from
`{"x"}` to `{"x", "y"}` does not increase the retained task count. -/
theorem tag_filter_monotone_witness :
    sectionsTaskCount (demoProject.filter_tasks 0 ∅ {"x", "y"}).sections ≤
      sectionsTaskCount (demoProject.filter_tasks 0 ∅ {"x"}).sections :=
  tag_filter_monotone demoProject 0 ∅ {"x"} {"x", "y"} (by decide)

/-! ## Sectioner invariants -/

/-- Helper: a record that is a concrete section marker. -/
def demoMarkerRecord : TaskRecord :=
  ⟨5, "A:", none, false, none, "", none, []⟩

/-- Helper: a record that is a plain task following the demo marker. -/
def demoPlainRecord : TaskRecord :=
  ⟨6, "T2", none, false, none, "", none, []⟩

/-- Invariant: every section already appended by the Sectioner scan has a
nonempty task list. -/
theorem sectLoop_sections_nonempty (tc : Nat → Option (List Story))
    (l : List TaskRecord) (st : SectState)
    (h : ∀ s ∈ st.revSections, s.tasks ≠ []) :
    ∀ s ∈ (l.foldl (sectStep tc) st).revSections, s.tasks ≠ [] := by
  induction l generalizing st with
  | nil => exact h
  | cons r l ih =>
    rw [List.foldl_cons]
    apply ih
    intro s hs
    by_cases hm : isSectionMarker r.name
    · simp only [sectStep, if_pos hm] at hs
      by_cases hc : st.revCurTasks.isEmpty = false ∧ st.curName ≠ "Misc:"
      · rw [if_pos hc] at hs
        rcases List.mem_cons.mp hs with rfl | hs
        · intro hnil
          have : st.revCurTasks = [] := by
            have := congrArg List.reverse hnil
            simpa using this
          rw [this] at hc
          exact absurd hc.1 (by simp)
        · exact h s hs
      · rw [if_neg hc] at hs
        exact h s hs
    · simp only [sectStep, if_neg hm] at hs
      exact h s hs

/-- Invariant: the epilogue only emits sections with nonempty task lists,
given that every already-appended section is nonempty. -/
theorem sectFinish_nonempty (st : SectState)
    (h : ∀ s ∈ st.revSections, s.tasks ≠ []) :
    ∀ s ∈ sectFinish st, s.tasks ≠ [] := by
  intro s hs
  simp only [sectFinish] at hs
  have hbase : ∀ s' ∈ (if st.revCurTasks.isEmpty then st.revSections.reverse
      else st.revSections.reverse ++ [⟨st.curName, st.revCurTasks.reverse⟩]),
      s'.tasks ≠ [] := by
    intro s' hs'
    by_cases hc : st.revCurTasks.isEmpty
    · rw [if_pos hc] at hs'
      exact h s' (List.mem_reverse.mp hs')
    · rw [if_neg hc] at hs'
      rcases List.mem_append.mp hs' with hs' | hs'
      · exact h s' (List.mem_reverse.mp hs')
      · rcases List.mem_singleton.mp hs' with rfl
        intro hnil
        apply hc
        have : st.revCurTasks = [] := by
          have := congrArg List.reverse hnil
          simpa using this
        simp [this]
  by_cases hmc : st.miscFinal.isEmpty = false ∧ st.curIsMisc = false
  · rw [if_pos hmc] at hs
    rcases List.mem_append.mp hs with hs | hs
    · exact hbase s hs
    · rcases List.mem_singleton.mp hs with rfl
      intro hnil
      have hmf : st.miscFinal = [] := hnil
      rw [hmf] at hmc
      exact absurd hmc.1 (by simp)
  · rw [if_neg hmc] at hs
    exact hbase s hs

/-- C3: every section emitted by the Sectioner has a nonempty task list,
and after `Project.filter_tasks` every retained section has at least one
task (the empty-section prune always runs, filters supplied or not). -/
theorem no_empty_sections :
    (∀ (records : List TaskRecord) (tc : Nat → Option (List Story)),
      ∀ s ∈ Section.create_sections records tc, s.tasks ≠ []) ∧
    (∀ (p : Project) (now : Int) (sf tf : Finset String),
      ∀ s ∈ (p.filter_tasks now sf tf).sections, s.tasks ≠ []) := by
  constructor
  · intro records tc s hs
    exact sectFinish_nonempty _
      (sectLoop_sections_nonempty tc records initSectState (by intro s hs; cases hs))
      s hs
  · intro p now sf tf s hs
    rw [filter_tasks_sections] at hs
    have := List.of_mem_filter hs
    intro hnil
    simp [hnil] at this

/-- Witness for C3 at concrete inputs: the Misc section produced from a
single pre-marker record is nonempty, and the section retained by
filtering the demo project is nonempty. -/
theorem no_empty_sections_witness :
    (Section.mk "Misc:" [parseTask (fun _ => none) prefixTaskRecord]).tasks ≠ [] ∧
    (Section.mk "S:" [demoTaskX]).tasks ≠ [] :=
  ⟨no_empty_sections.1 [prefixTaskRecord] (fun _ => none)
     (Section.mk "Misc:" [parseTask (fun _ => none) prefixTaskRecord]) (by decide),
   no_empty_sections.2 demoProject 0 ∅ {"x"}
     (Section.mk "S:" [demoTaskX]) (by decide)⟩

/-- No task held anywhere in the Sectioner state has a marker name. -/
def TasksOK (st : SectState) : Prop :=
  (∀ s ∈ st.revSections, ∀ t ∈ s.tasks, isSectionMarker t.name = false) ∧
  (∀ t ∈ st.revCurTasks, isSectionMarker t.name = false) ∧
  (∀ t ∈ st.miscTasks, isSectionMarker t.name = false)

/-- Invariant: the scan never stores a marker-named task. -/
theorem sectLoop_tasksOK (tc : Nat → Option (List Story))
    (l : List TaskRecord) (st : SectState) (h : TasksOK st) :
    TasksOK (l.foldl (sectStep tc) st) := by
  induction l generalizing st with
  | nil => exact h
  | cons r l ih =>
    rw [List.foldl_cons]
    apply ih
    obtain ⟨h1, h2, h3⟩ := h
    by_cases hm : isSectionMarker r.name
    · refine ⟨?_, ?_, ?_⟩ <;> simp only [sectStep, if_pos hm]
      · intro s hs
        by_cases hc : st.revCurTasks.isEmpty = false ∧ st.curName ≠ "Misc:"
        · rw [if_pos hc] at hs
          rcases List.mem_cons.mp hs with rfl | hs
          · intro t ht
            exact h2 t (List.mem_reverse.mp ht)
          · exact h1 s hs
        · rw [if_neg hc] at hs
          exact h1 s hs
      · intro t ht
        cases ht
      · intro t ht
        by_cases hmi : st.curIsMisc
        · rw [if_pos hmi] at ht
          exact h2 t (List.mem_reverse.mp ht)
        · rw [if_neg hmi] at ht
          exact h3 t ht
    · refine ⟨?_, ?_, ?_⟩ <;> simp only [sectStep, if_neg hm]
      · exact h1
      · intro t ht
        rcases List.mem_cons.mp ht with rfl | ht
        · simpa [parseTask] using Bool.of_not_eq_true hm
        · exact h2 t ht
      · exact h3

/-- Invariant: the epilogue emits only tasks held in the final state. -/
theorem sectFinish_tasksOK (st : SectState) (h : TasksOK st) :
    ∀ s ∈ sectFinish st, ∀ t ∈ s.tasks, isSectionMarker t.name = false := by
  intro s hs t ht
  obtain ⟨h1, h2, h3⟩ := h
  have hmisc : ∀ t ∈ st.miscFinal, isSectionMarker t.name = false := by
    intro t ht
    by_cases hmi : st.curIsMisc
    · rw [SectState.miscFinal, if_pos hmi] at ht
      exact h2 t (List.mem_reverse.mp ht)
    · rw [SectState.miscFinal, if_neg hmi] at ht
      exact h3 t ht
  simp only [sectFinish] at hs
  have hbase : ∀ s' ∈ (if st.revCurTasks.isEmpty then st.revSections.reverse
      else st.revSections.reverse ++ [⟨st.curName, st.revCurTasks.reverse⟩]),
      ∀ t' ∈ s'.tasks, isSectionMarker t'.name = false := by
    intro s' hs' t' ht'
    by_cases hc : st.revCurTasks.isEmpty
    · rw [if_pos hc] at hs'
      exact h1 s' (List.mem_reverse.mp hs') t' ht'
    · rw [if_neg hc] at hs'
      rcases List.mem_append.mp hs' with hs' | hs'
      · exact h1 s' (List.mem_reverse.mp hs') t' ht'
      · rcases List.mem_singleton.mp hs' with rfl
        exact h2 t' (List.mem_reverse.mp ht')
  by_cases hmc : st.miscFinal.isEmpty = false ∧ st.curIsMisc = false
  · rw [if_pos hmc] at hs
    rcases List.mem_append.mp hs with hs | hs
    · exact hbase s hs t ht
    · rcases List.mem_singleton.mp hs with rfl
      exact hmisc t ht
  · rw [if_neg hmc] at hs
    exact hbase s hs t ht

/-- Every section name in the Sectioner state is either the synthetic
`Misc:` name or satisfies the name predicate `U`. -/
def NamesOK (U : String → Prop) (st : SectState) : Prop :=
  (∀ s ∈ st.revSections, s.name = "Misc:" ∨ U s.name) ∧
  (st.curName = "Misc:" ∨ U st.curName)

/-- Invariant: the scan only introduces section names of markers it has
consumed. -/
theorem sectLoop_namesOK (tc : Nat → Option (List Story)) (U : String → Prop)
    (l : List TaskRecord) (st : SectState)
    (hU : ∀ r ∈ l, isSectionMarker r.name = true → U r.name)
    (h : NamesOK U st) : NamesOK U (l.foldl (sectStep tc) st) := by
  induction l generalizing st with
  | nil => exact h
  | cons r l ih =>
    rw [List.foldl_cons]
    apply ih
    · intro r' hr'
      exact hU r' (List.mem_cons_of_mem r hr')
    · obtain ⟨h1, h2⟩ := h
      by_cases hm : isSectionMarker r.name
      · constructor <;> simp only [sectStep, if_pos hm]
        · intro s hs
          by_cases hc : st.revCurTasks.isEmpty = false ∧ st.curName ≠ "Misc:"
          · rw [if_pos hc] at hs
            rcases List.mem_cons.mp hs with rfl | hs
            · exact h2
            · exact h1 s hs
          · rw [if_neg hc] at hs
            exact h1 s hs
        · exact Or.inr (hU r (List.mem_cons_self r l) hm)
      · constructor <;> simp only [sectStep, if_neg hm]
        · exact h1
        · exact h2

/-- Invariant: the epilogue emits only the accumulated names, the final
current name, or the synthetic `Misc:` name. -/
theorem sectFinish_namesOK (U : String → Prop) (st : SectState)
    (h : NamesOK U st) :
    ∀ s ∈ sectFinish st, s.name = "Misc:" ∨ U s.name := by
  intro s hs
  obtain ⟨h1, h2⟩ := h
  simp only [sectFinish] at hs
  have hbase : ∀ s' ∈ (if st.revCurTasks.isEmpty then st.revSections.reverse
      else st.revSections.reverse ++ [⟨st.curName, st.revCurTasks.reverse⟩]),
      s'.name = "Misc:" ∨ U s'.name := by
    intro s' hs'
    by_cases hc : st.revCurTasks.isEmpty
    · rw [if_pos hc] at hs'
      exact h1 s' (List.mem_reverse.mp hs')
    · rw [if_neg hc] at hs'
      rcases List.mem_append.mp hs' with hs' | hs'
      · exact h1 s' (List.mem_reverse.mp hs')
      · rcases List.mem_singleton.mp hs' with rfl
        exact h2
  by_cases hmc : st.miscFinal.isEmpty = false ∧ st.curIsMisc = false
  · rw [if_pos hmc] at hs
    rcases List.mem_append.mp hs with hs | hs
    · exact hbase s hs
    · rcases List.mem_singleton.mp hs with rfl
      exact Or.inl rfl
  · rw [if_neg hmc] at hs
    exact hbase s hs

/-- C4: the Sectioner classifies a record as a section marker iff its
display name ends with a colon, and the classification reads no other
field: a marker starts a fresh current section named after the marker text
(colon retained) with no tasks, a non-marker is parsed and appended to the
current section without appending any section, two records with the same
name are classified alike, no task in any output section carries a marker
name (markers never become tasks), and every output section is either the
synthetic Misc section or named after the text of some marker record of
the input. -/
theorem section_marker_convention :
    (∀ (tc : Nat → Option (List Story)) (st : SectState) (r : TaskRecord),
      isSectionMarker r.name = true →
        (sectStep tc st r).curName = r.name ∧
        (sectStep tc st r).revCurTasks = []) ∧
    (∀ (tc : Nat → Option (List Story)) (st : SectState) (r : TaskRecord),
      isSectionMarker r.name = false →
        (sectStep tc st r).curName = st.curName ∧
        (sectStep tc st r).revCurTasks = parseTask tc r :: st.revCurTasks ∧
        (sectStep tc st r).revSections = st.revSections) ∧
    (∀ (r r' : TaskRecord), r.name = r'.name →
      isSectionMarker r.name = isSectionMarker r'.name) ∧
    (∀ (records : List TaskRecord) (tc : Nat → Option (List Story)),
      ∀ s ∈ Section.create_sections records tc, ∀ t ∈ s.tasks,
        isSectionMarker t.name = false) ∧
    (∀ (records : List TaskRecord) (tc : Nat → Option (List Story)),
      ∀ s ∈ Section.create_sections records tc,
        s.name = "Misc:" ∨
          ∃ r ∈ records, isSectionMarker r.name = true ∧ s.name = r.name) := by
  refine ⟨?_, ?_, ?_, ?_, ?_⟩
  · intro tc st r hm
    simp [sectStep, hm]
  · intro tc st r hm
    simp [sectStep, hm]
  · intro r r' hname
    rw [hname]
  · intro records tc s hs t ht
    refine sectFinish_tasksOK _ ?_ s hs t ht
    exact sectLoop_tasksOK tc records initSectState
      ⟨(by intro s hs; cases hs), (by intro t ht; cases ht),
       (by intro t ht; cases ht)⟩
  · intro records tc s hs
    refine sectFinish_namesOK
      (fun nm => ∃ r ∈ records, isSectionMarker r.name = true ∧ nm = r.name) _ ?_ s hs
    refine sectLoop_namesOK tc _ records initSectState ?_
      ⟨(by intro s hs; cases hs), Or.inl rfl⟩
    intro r hr hm
    exact ⟨r, hr, hm, rfl⟩

/-- Witness for C4 at concrete inputs: a marker record starts a fresh
section named after it, a plain record is appended as a task, equal names
classify alike, and the parsed pre-marker task is not marker-named. -/
theorem section_marker_convention_witness :
    (sectStep (fun _ => none) initSectState demoMarkerRecord).curName =
        demoMarkerRecord.name ∧
    (sectStep (fun _ => none) initSectState prefixTaskRecord).curName =
        initSectState.curName ∧
    isSectionMarker prefixTaskRecord.name =
        isSectionMarker prefixTaskRecord.name ∧
    isSectionMarker (parseTask (fun _ => none) prefixTaskRecord).name = false :=
  ⟨(section_marker_convention.1 (fun _ => none) initSectState demoMarkerRecord
      (by decide)).1,
   (section_marker_convention.2.1 (fun _ => none) initSectState prefixTaskRecord
      (by decide)).1,
   section_marker_convention.2.2.1 prefixTaskRecord prefixTaskRecord rfl,
   section_marker_convention.2.2.2.1 [prefixTaskRecord] (fun _ => none)
     (Section.mk "Misc:" [parseTask (fun _ => none) prefixTaskRecord]) (by decide)
     (parseTask (fun _ => none) prefixTaskRecord) (by decide)⟩

/-- Invariant: while `current_section` is still the Misc object, the
current name is `Misc:` and no section has been appended yet. -/
theorem sectLoop_misc_inv (tc : Nat → Option (List Story))
    (l : List TaskRecord) (st : SectState)
    (h : st.curIsMisc = true → st.curName = "Misc:" ∧ st.revSections = []) :
    (l.foldl (sectStep tc) st).curIsMisc = true →
      (l.foldl (sectStep tc) st).curName = "Misc:" ∧
      (l.foldl (sectStep tc) st).revSections = [] := by
  induction l generalizing st with
  | nil => exact h
  | cons r l ih =>
    rw [List.foldl_cons]
    apply ih
    by_cases hm : isSectionMarker r.name
    · simp [sectStep, hm]
    · simp only [sectStep, if_neg hm]
      exact h

/-- C2: the Sectioner's epilogue appends the final current section exactly
when it has at least one task, and then appends the Misc section exactly
when the Misc section accumulated at least one task and is not already the
last appended section.  The code tests `current_section != misc_section`
(object identity, tracked here by `curIsMisc`), while the spec asks that
Misc not already be the last appended section; Misc can only ever be
appended by the epilogue itself — as the final current section when no
marker was seen, or by the trailing Misc append — so the two conditions
coincide, which is what the first conjunct's equality states.  The second
conjunct gives the consequence: whenever the Misc section accumulated
tasks it appears exactly once, as the last section of the output (in the
no-marker case the first branch is the one that emits it; otherwise the
trailing append is). -/
theorem sectioner_misc_append (records : List TaskRecord)
    (tc : Nat → Option (List Story)) :
    (Section.create_sections records tc =
      ((sectLoop tc records).revSections.reverse ++
        (if (sectLoop tc records).revCurTasks.isEmpty then []
         else [⟨(sectLoop tc records).curName,
                (sectLoop tc records).revCurTasks.reverse⟩])) ++
      (if (sectLoop tc records).miscFinal ≠ [] ∧
          ¬ ((sectLoop tc records).curIsMisc = true ∧
             (sectLoop tc records).revCurTasks ≠ []) then
         [⟨"Misc:", (sectLoop tc records).miscFinal⟩]
       else [])) ∧
    ((sectLoop tc records).miscFinal ≠ [] →
      (Section.create_sections records tc).getLast? =
        some ⟨"Misc:", (sectLoop tc records).miscFinal⟩) := by
  set st := sectLoop tc records with hst
  have hmi := sectLoop_misc_inv tc records initSectState (fun _ => ⟨rfl, rfl⟩)
  rw [← sectLoop] at hmi
  have hcs : Section.create_sections records tc = sectFinish st := rfl
  constructor
  · rw [hcs]
    simp only [sectFinish]
    by_cases hmic : st.curIsMisc
    · have hcode : ¬ (st.miscFinal.isEmpty = false ∧ st.curIsMisc = false) := by
        rintro ⟨-, hf⟩
        rw [hmic] at hf
        simp at hf
      have hspec : ¬ (st.miscFinal ≠ [] ∧
          ¬ (st.curIsMisc = true ∧ st.revCurTasks ≠ [])) := by
        rintro ⟨hne, hnot⟩
        apply hnot
        refine ⟨hmic, fun hcur => hne ?_⟩
        rw [SectState.miscFinal, if_pos hmic, hcur]
        rfl
      rw [if_neg hcode, if_neg hspec]
      by_cases hc : st.revCurTasks.isEmpty
      · rw [if_pos hc, if_pos hc, List.append_nil, List.append_nil]
      · rw [if_neg hc, if_neg hc, List.append_nil]
    · have hmicf : st.curIsMisc = false := by
        revert hmic
        cases st.curIsMisc <;> simp
      by_cases hie : st.miscFinal.isEmpty
      · have hmf : st.miscFinal = [] := List.isEmpty_iff.mp hie
        have hcode : ¬ (st.miscFinal.isEmpty = false ∧ st.curIsMisc = false) := by
          rintro ⟨hf, -⟩
          rw [hie] at hf
          simp at hf
        have hspec : ¬ (st.miscFinal ≠ [] ∧
            ¬ (st.curIsMisc = true ∧ st.revCurTasks ≠ [])) := by
          rintro ⟨hne, -⟩
          exact hne hmf
        rw [if_neg hcode, if_neg hspec]
        by_cases hc : st.revCurTasks.isEmpty
        · rw [if_pos hc, if_pos hc, List.append_nil, List.append_nil]
        · rw [if_neg hc, if_neg hc, List.append_nil]
      · have hie' : st.miscFinal.isEmpty = false := by
          revert hie
          cases st.miscFinal.isEmpty <;> simp
        have hne : st.miscFinal ≠ [] := fun hnil => hie (by simp [hnil])
        have hcode : st.miscFinal.isEmpty = false ∧ st.curIsMisc = false :=
          ⟨hie', hmicf⟩
        have hspec : st.miscFinal ≠ [] ∧
            ¬ (st.curIsMisc = true ∧ st.revCurTasks ≠ []) := by
          refine ⟨hne, ?_⟩
          rintro ⟨hT, -⟩
          rw [hmicf] at hT
          simp at hT
        rw [if_pos hcode, if_pos hspec]
        by_cases hc : st.revCurTasks.isEmpty
        · rw [if_pos hc, if_pos hc, List.append_nil]
        · rw [if_neg hc, if_neg hc]
  · intro hne
    rw [hcs]
    simp only [sectFinish]
    by_cases hmic : st.curIsMisc
    · obtain ⟨hname, hrev⟩ := hmi hmic
      have hmf : st.miscFinal = st.revCurTasks.reverse := by
        rw [SectState.miscFinal, if_pos hmic]
      have hcur : ¬ st.revCurTasks.isEmpty = true := by
        intro hc
        exact hne (by rw [hmf, List.isEmpty_iff.mp hc]; rfl)
      have hcode : ¬ (st.miscFinal.isEmpty = false ∧ st.curIsMisc = false) := by
        rintro ⟨-, hf⟩
        rw [hmic] at hf
        simp at hf
      rw [if_neg hcode, if_neg hcur, hrev, hname, hmf]
      simp
    · have hmicf : st.curIsMisc = false := by
        revert hmic
        cases st.curIsMisc <;> simp
      have hie' : st.miscFinal.isEmpty = false := by
        cases h : st.miscFinal.isEmpty
        · rfl
        · exact absurd (List.isEmpty_iff.mp h) hne
      have hcode : st.miscFinal.isEmpty = false ∧ st.curIsMisc = false :=
        ⟨hie', hmicf⟩
      rw [if_pos hcode]
      exact List.getLast?_concat _

/-- Witness for C2 at concrete inputs: with a single pre-marker record the
output's last section is the Misc section (emitted as the final current
section), and with a pre-marker record followed by a marker and a plain
task the Misc section is appended at the very end. -/
theorem sectioner_misc_append_witness :
    (Section.create_sections [prefixTaskRecord] (fun _ => none)).getLast? =
      some ⟨"Misc:", (sectLoop (fun _ => none) [prefixTaskRecord]).miscFinal⟩ ∧
    (Section.create_sections [prefixTaskRecord, demoMarkerRecord, demoPlainRecord]
        (fun _ => none)).getLast? =
      some ⟨"Misc:", (sectLoop (fun _ => none)
        [prefixTaskRecord, demoMarkerRecord, demoPlainRecord]).miscFinal⟩ :=
  ⟨(sectioner_misc_append [prefixTaskRecord] (fun _ => none)).2 (by decide),
   (sectioner_misc_append [prefixTaskRecord, demoMarkerRecord, demoPlainRecord]
      (fun _ => none)).2 (by decide)⟩

end AsanaMailer

